import Mathlib

/-!
Verification of the `filetagging` tag store
(`src/filetagging/filetagging.py`).

The store keeps, per directory, a Python dict mapping file names to sets
of tag strings, backed by a `tags.json` sidecar file.  The shallow
embedding below models:

* parsed JSON values (`Json`) as produced by `json.loads` — object keys
  are always strings, numeric literals are modelled as integers;
* the Python dict as an association list with unique keys in insertion
  order (`dictGet` / `dictSet` / `dictDel` mirror `d[k]`, `d[k] = v` and
  `del d[k]` under the unique-key discipline every Python dict has);
* a Python set of strings as a duplicate-free list; the list order
  stands for the set's (arbitrary, hash-dependent) iteration order.
  `pySet` models `set(...)` construction keeping first occurrences,
  `setAdd` models `s.add(x)` appending new elements;
* errors raised by the code as values of `PyError` (`TypeError`,
  `AttributeError` — raised by `data.items()` on a non-dict, carrying
  the offending type name — `KeyError`, `FileNotFoundError`);
* the filesystem visible to one store as `Option Json`: the parsed
  content of the sidecar file, `none` when the file does not exist.
  `json.dumps(..., indent=4, sort_keys=True)` is modelled up to the
  structure of the emitted JSON value: an object whose entries appear
  in sorted key order, each value being the list `list(v)` in the
  set's iteration order.
-/

/-- Parsed JSON values as returned by `json.loads`. -/
inductive Json where
  | null : Json
  | bool : Bool → Json
  | num : Int → Json
  | str : String → Json
  | arr : List Json → Json
  | obj : List (String × Json) → Json

/-- Python `type(x).__name__` for a parsed JSON value. -/
def typeName : Json → String
  | Json.null => "NoneType"
  | Json.bool _ => "bool"
  | Json.num _ => "int"
  | Json.str _ => "str"
  | Json.arr _ => "list"
  | Json.obj _ => "dict"

/-- Exceptions the tag store can raise. -/
inductive PyError where
  | typeError : String → PyError
  | attributeError : String → PyError
  | keyError : String → PyError
  | fileNotFoundError : String → PyError
deriving DecidableEq

/-- The in-memory `self.tags` dict: file name → tag set. -/
abbrev Tags := List (String × List String)

/-- Python `d[k]` lookup (first matching key; keys are unique in a dict). -/
def dictGet {α : Type} : List (String × α) → String → Option α
  | [], _ => none
  | kv :: d, k => if kv.1 = k then some kv.2 else dictGet d k

/-- Python `d[k] = v`: replace the entry if the key is present, else append. -/
def dictSet {α : Type} : List (String × α) → String → α → List (String × α)
  | [], k, v => [(k, v)]
  | kv :: d, k, v => if kv.1 = k then (k, v) :: d else kv :: dictSet d k v

/-- Python `del d[k]` (the key is always present where the code uses it). -/
def dictDel {α : Type} (d : List (String × α)) (k : String) : List (String × α) :=
  d.filter (fun kv => kv.1 ≠ k)

/-- Python `s.add(x)` on a set of strings: no-op when present. -/
def setAdd (s : List String) (x : String) : List String :=
  if x ∈ s then s else s ++ [x]

/-- Python `set(xs)` built from an iterable of strings (keeps first
occurrences; the resulting order stands for set iteration order). -/
def pySet : List String → List String
  | [] => []
  | x :: xs => x :: (pySet xs).filter (fun y => y ≠ x)

/-- Source: `TagsFile.get_tags`.  `return self.tags[filename]`. -/
def get_tags (tags : Tags) (filename : String) : Except PyError (List String) :=
  match dictGet tags filename with
  | some s => Except.ok s
  | none => Except.error (PyError.keyError filename)

/-- Source: `TagsFile.set_tags`.  `self.tags[filename] = set(tags)`,
then delete the entry when the resulting set is empty. -/
def set_tags (tags : Tags) (filename : String) (ts : List String) : Tags :=
  let s := pySet ts
  let tags1 := dictSet tags filename s
  if s.isEmpty then dictDel tags1 filename else tags1

/-- Source: `TagsFile.add_tag`.  Add to the existing set, or create a
fresh singleton entry. -/
def add_tag (tags : Tags) (filename tag : String) : Tags :=
  match dictGet tags filename with
  | some s => dictSet tags filename (setAdd s tag)
  | none => dictSet tags filename [tag]

/-- Source: `TagsFile.remove_tag`.  `self.tags[filename].discard(tag)`
(a `KeyError` when the file has no entry), then delete the entry when
the set became empty. -/
def remove_tag (tags : Tags) (filename tag : String) : Except PyError Tags :=
  match dictGet tags filename with
  | none => Except.error (PyError.keyError filename)
  | some s =>
    let s' := s.erase tag
    let tags1 := dictSet tags filename s'
    if s'.isEmpty then Except.ok (dictDel tags1 filename) else Except.ok tags1

/-- Source: `TagsFile._filter_missing_files`.  `existsF` models
`(self._directory/k).exists()`. -/
def filter_missing_files (discard : Bool) (existsF : String → Bool) (tags : Tags) : Tags :=
  if discard then tags.filter (fun kv => existsF kv.1) else tags

/-- `isinstance(x, str)` on a parsed JSON value. -/
def isStr : Json → Bool
  | Json.str _ => true
  | _ => false

/-- The value is a list all of whose elements are strings. -/
def isStrArr : Json → Bool
  | Json.arr xs => xs.all isStr
  | _ => false

/-- The schema `_validate_tags_data` accepts: an object each of whose
values is an array of strings.  (Keys of parsed JSON objects are always
strings, so the `isinstance(key, str)` check in the source never fires.) -/
def schemaOk : Json → Bool
  | Json.obj kvs => kvs.all (fun kv => isStrArr kv.2)
  | _ => false

/-- `str(i)` applied to an element of a validated list (always a string
there; non-strings never reach the conversion). -/
def asStr : Json → String
  | Json.str s => s
  | _ => ""

/-- The string elements of a validated array value. -/
def jsonToStrList : Json → List String
  | Json.arr xs => xs.map asStr
  | _ => []

/-- The validation loop of `_validate_tags_data`: for each entry in dict
order, raise a `TypeError` on the first non-list value or the first list
containing non-string elements, with the messages of the source. -/
def validateEntries : List (String × Json) → Except PyError Unit
  | [] => Except.ok ()
  | (k, v) :: rest =>
    match v with
    | Json.arr xs =>
      if xs.all isStr then validateEntries rest
      else Except.error (PyError.typeError ("\"" ++ k ++ "\" list contains non-string elements"))
    | _ => Except.error (PyError.typeError ("\"" ++ k ++ "\" is of non-list type " ++ typeName v))

/-- Source: `_validate_tags_data`.  A non-dict root fails in
`data.items()` with an `AttributeError` (modelled as carrying the root's
type name); otherwise the entries are validated in order and, on
success, every value is converted by `set(str(i) for i in v)`. -/
def _validate_tags_data (data : Json) : Except PyError Tags :=
  match data with
  | Json.obj kvs =>
    match validateEntries kvs with
    | Except.error e => Except.error e
    | Except.ok _ => Except.ok (kvs.map (fun kv => (kv.1, pySet (jsonToStrList kv.2))))
  | _ => Except.error (PyError.attributeError (typeName data))

/-- Lexicographic `<=` on code points: Python string comparison, as used
by `sort_keys=True`. -/
def lexLe : List Char → List Char → Bool
  | [], _ => true
  | _ :: _, [] => false
  | a :: as, b :: bs =>
    if a.toNat < b.toNat then true
    else if a.toNat = b.toNat then lexLe as bs
    else false

/-- Python `a <= b` on strings. -/
def strLe (a b : String) : Bool := lexLe a.data b.data

/-- Key order used when serializing: compare entries by their key. -/
def keyRel {α : Type} (x y : String × α) : Prop := strLe x.1 y.1 = true

instance {α : Type} : DecidableRel (@keyRel α) :=
  fun x y => inferInstanceAs (Decidable (strLe x.1 y.1 = true))

/-- Source: the write in `TagsFile.__exit__`:
`json.dumps({k:list(v) for k,v in self.tags.items()}, indent=4, sort_keys=True)`,
modelled up to JSON structure: entries in sorted key order, each value
the tag set's elements in iteration order (NOT sorted). -/
def serializeTags (tags : Tags) : Json :=
  Json.obj (List.insertionSort keyRel
    (tags.map (fun kv => (kv.1, Json.arr (kv.2.map Json.str)))))

/-- Source: `TagsFile.__exit__`.  Filter missing files, then overwrite
the sidecar when the mapping is non-empty; when it is empty, delete the
sidecar if it exists, else do nothing.  The result is the sidecar file
content after close. -/
def tagsFileExit (discard : Bool) (existsF : String → Bool) (tags : Tags)
    (sidecar : Option Json) : Option Json :=
  let tags1 := filter_missing_files discard existsF tags
  if ¬ tags1.isEmpty then some (serializeTags tags1)
  else
    match sidecar with
    | some _ => none
    | none => none

/-- Source: `TagsFile.__init__`.  Parse the sidecar if it exists (its
parsed content is `sidecar`); otherwise start empty when `create_new`,
else raise `FileNotFoundError`.  Then validate and filter missing files. -/
def tagsFileInit (sidecar : Option Json) (create_new discard : Bool)
    (existsF : String → Bool) : Except PyError Tags :=
  match sidecar with
  | some j =>
    match _validate_tags_data j with
    | Except.error e => Except.error e
    | Except.ok t => Except.ok (filter_missing_files discard existsF t)
  | none =>
    if create_new then
      match _validate_tags_data (Json.obj []) with
      | Except.error e => Except.error e
      | Except.ok t => Except.ok (filter_missing_files discard existsF t)
    else Except.error (PyError.fileNotFoundError "Missing file tags.json")

/-- Source: the `copy_tags` helper inside `mv_tagged_file`, in the
same-directory case where both `TagsFile` arguments alias one store:
`tagfile2.set_tags(key2, tagfile1.get_tags(key1))` then
`tagfile1.set_tags(key1, set())`. -/
def copy_tags (k1 k2 : String) (tags : Tags) : Except PyError Tags :=
  match get_tags tags k1 with
  | Except.error e => Except.error e
  | Except.ok s => Except.ok (set_tags (set_tags tags k2 s) k1 [])

/-- Source: `copy_tags` in the cross-directory case, acting on two
distinct stores; returns (source store, destination store). -/
def copy_tags2 (k1 k2 : String) (tags1 tags2 : Tags) :
    Except PyError (Tags × Tags) :=
  match get_tags tags1 k1 with
  | Except.error e => Except.error e
  | Except.ok s => Except.ok (set_tags tags1 k1 [], set_tags tags2 k2 s)

/-- Outcome of `mv_tagged_file` in the same-directory branch:
the in-memory mapping when the store closes, the sidecar content after
the store's `__exit__` (which runs even when `copy_tags` raised), the
exception if one propagated, and whether `path1.rename(path2)` - which
comes after the `with` block - was reached. -/
structure MvOutcome where
  tagsAfter : Tags
  sidecarAfter : Option Json
  err : Option PyError
  renamed : Bool

/-- Source: `mv_tagged_file`, branch `path1.parent == path2.parent`
(the `assert path1.is_file()` precondition is presumed to hold).
`k1`/`k2` are `path1.name`/`path2.name`; `sidecar` is the directory's
sidecar content, already loaded into `tags` by `open_tags`. -/
def mv_same_dir (tags : Tags) (sidecar : Option Json) (k1 k2 : String) : MvOutcome :=
  match copy_tags k1 k2 tags with
  | Except.error e =>
    { tagsAfter := tags
      sidecarAfter := tagsFileExit false (fun _ => true) tags sidecar
      err := some e
      renamed := false }
  | Except.ok tags' =>
    { tagsAfter := tags'
      sidecarAfter := tagsFileExit false (fun _ => true) tags' sidecar
      err := none
      renamed := true }

/-- Outcome of `mv_tagged_file` in the cross-directory branch. -/
structure MvOutcome2 where
  tags1After : Tags
  tags2After : Tags
  err : Option PyError
  renamed : Bool

/-- Source: `mv_tagged_file`, branch for distinct directories: two
stores (the destination opened with `create_new=True`), tags
transferred, both stores close, then the rename. -/
def mv_cross_dir (tags1 tags2 : Tags) (k1 k2 : String) : MvOutcome2 :=
  match copy_tags2 k1 k2 tags1 tags2 with
  | Except.error e =>
    { tags1After := tags1, tags2After := tags2, err := some e, renamed := false }
  | Except.ok (t1, t2) =>
    { tags1After := t1, tags2After := t2, err := none, renamed := true }

/-- `sub` occurs as a prefix of `text`. -/
def startsWithCL : List Char → List Char → Bool
  | [], _ => true
  | _ :: _, [] => false
  | a :: as, b :: bs => (a == b) && startsWithCL as bs

/-- `sub` occurs as a contiguous substring of `text`. -/
def containsCL (sub : List Char) : List Char → Bool
  | [] => startsWithCL sub []
  | c :: rest => startsWithCL sub (c :: rest) || containsCL sub rest

/-- The string `sub` occurs inside `s`. -/
def strContains (s sub : String) : Bool := containsCL sub.data s.data

/-- The data-model invariant of the spec: a file name key is present iff
its tag set is non-empty (presence of a key with an empty set is the
only way to violate it in this representation). -/
def TagsInv (tags : Tags) : Prop := ∀ kv ∈ tags, kv.2 ≠ []

/-- Well-formedness every store reachable through the Python `dict` /
`set` types has: unique file-name keys and duplicate-free tag sets. -/
def WFTags (tags : Tags) : Prop :=
  (tags.map Prod.fst).Nodup ∧ ∀ kv ∈ tags, kv.2.Nodup

/-- Two optional tag sets are equal as sets. -/
def EqAsSets : Option (List String) → Option (List String) → Prop
  | none, none => True
  | some a, some b => ∀ x, x ∈ a ↔ x ∈ b
  | _, _ => False

/-! ## Dictionary lemmas -/

theorem dictGet_dictSet_self {α : Type} (d : List (String × α)) (k : String) (v : α) :
    dictGet (dictSet d k v) k = some v := by
  induction d with
  | nil => simp [dictGet, dictSet]
  | cons kv d ih =>
    by_cases h : kv.1 = k
    · simp [dictSet, h, dictGet]
    · simp [dictSet, h, dictGet, ih]

theorem dictGet_dictSet_ne {α : Type} (d : List (String × α)) {k k' : String} (v : α)
    (h : k ≠ k') : dictGet (dictSet d k v) k' = dictGet d k' := by
  induction d with
  | nil => simp [dictGet, dictSet, h]
  | cons kv d ih =>
    by_cases hk : kv.1 = k
    · subst hk
      simp [dictSet, dictGet, h]
    · simp [dictSet, hk, dictGet, ih]

theorem dictGet_dictDel_self {α : Type} (d : List (String × α)) (k : String) :
    dictGet (dictDel d k) k = none := by
  induction d with
  | nil => rfl
  | cons kv d ih =>
    by_cases h : kv.1 = k
    · simpa [dictDel, List.filter_cons, h] using ih
    · simpa [dictDel, List.filter_cons, h, dictGet] using ih

theorem dictGet_dictDel_ne {α : Type} (d : List (String × α)) {k k' : String}
    (h : k ≠ k') : dictGet (dictDel d k) k' = dictGet d k' := by
  induction d with
  | nil => rfl
  | cons kv d ih =>
    by_cases hk : kv.1 = k
    · rw [show dictDel (kv :: d) k = dictDel d k by simp [dictDel, List.filter_cons, hk]]
      rw [ih]
      have hne : kv.1 ≠ k' := by rw [hk]; exact h
      simp [dictGet, hne]
    · rw [show dictDel (kv :: d) k = kv :: dictDel d k by simp [dictDel, List.filter_cons, hk]]
      by_cases hk' : kv.1 = k'
      · simp [dictGet, hk']
      · simp [dictGet, hk', ih]

theorem dictSet_of_get_eq {α : Type} {d : List (String × α)} {k : String} {v : α}
    (h : dictGet d k = some v) : dictSet d k v = d := by
  induction d with
  | nil => simp [dictGet] at h
  | cons kv d ih =>
    by_cases hk : kv.1 = k
    · simp [dictGet, hk] at h
      cases kv with
    | mk k0 v0 =>
        simp only at hk h
        simp [dictSet, hk, h]
    · simp [dictGet, hk] at h
      simp [dictSet, hk, ih h]

theorem dictSet_dictSet {α : Type} (d : List (String × α)) (k : String) (v w : α) :
    dictSet (dictSet d k v) k w = dictSet d k w := by
  induction d with
  | nil => simp [dictSet]
  | cons kv d ih =>
    by_cases hk : kv.1 = k
    · simp [dictSet, hk]
    · simp [dictSet, hk, ih]

theorem mem_dictSet {α : Type} {d : List (String × α)} {k : String} {v : α} {kv : String × α}
    (h : kv ∈ dictSet d k v) : kv = (k, v) ∨ kv ∈ d := by
  induction d with
  | nil => simpa [dictSet] using h
  | cons kv' d ih =>
    by_cases hk : kv'.1 = k
    · simp [dictSet, hk] at h
      rcases h with h | h
      · exact Or.inl h
      · exact Or.inr (List.mem_cons_of_mem _ h)
    · simp [dictSet, hk] at h
      rcases h with h | h
      · exact Or.inr (by simp [h])
      · rcases ih h with h' | h'
        · exact Or.inl h'
        · exact Or.inr (List.mem_cons_of_mem _ h')

theorem mem_dictDel {α : Type} {d : List (String × α)} {k : String} {kv : String × α}
    (h : kv ∈ dictDel d k) : kv ∈ d :=
  List.mem_of_mem_filter h

theorem mem_of_dictGet_some {α : Type} {d : List (String × α)} {k : String} {v : α}
    (h : dictGet d k = some v) : (k, v) ∈ d := by
  induction d with
  | nil => simp [dictGet] at h
  | cons kv d ih =>
    by_cases hk : kv.1 = k
    · simp [dictGet, hk] at h
      cases kv with
    | mk k0 v0 =>
        simp only at hk h
        simp [hk, h]
    · simp [dictGet, hk] at h
      exact List.mem_cons_of_mem _ (ih h)

theorem dictGet_eq_some_of_mem {α : Type} {d : List (String × α)} {k : String} {v : α}
    (hnd : (d.map Prod.fst).Nodup) (h : (k, v) ∈ d) : dictGet d k = some v := by
  induction d with
  | nil => simp at h
  | cons kv d ih =>
    rw [List.map_cons, List.nodup_cons] at hnd
    rcases List.mem_cons.mp h with h1 | h1
    · simp [dictGet, ← h1]
    · by_cases hk : kv.1 = k
      · exfalso
        have hmem : k ∈ d.map Prod.fst := List.mem_map_of_mem Prod.fst h1
        exact hnd.1 (hk ▸ hmem)
      · simp only [dictGet, hk, if_false]
        exact ih hnd.2 h1

theorem dictGet_eq_none_iff {α : Type} {d : List (String × α)} {k : String} :
    dictGet d k = none ↔ ∀ kv ∈ d, kv.1 ≠ k := by
  induction d with
  | nil => simp [dictGet]
  | cons kv d ih =>
    by_cases hk : kv.1 = k
    · simp [dictGet, hk]
    · simp [dictGet, hk, ih]

theorem dictGet_congr_perm {α : Type} {d d' : List (String × α)} (hp : d.Perm d')
    (hnd : (d.map Prod.fst).Nodup) (k : String) : dictGet d k = dictGet d' k := by
  cases h : dictGet d k with
  | none =>
    rw [dictGet_eq_none_iff] at h
    symm
    rw [dictGet_eq_none_iff]
    intro kv hkv
    exact h kv (hp.symm.subset hkv)
  | some v =>
    have hmem : (k, v) ∈ d' := hp.subset (mem_of_dictGet_some h)
    have hnd' : (d'.map Prod.fst).Nodup := ((hp.map Prod.fst).nodup_iff).mp hnd
    exact (dictGet_eq_some_of_mem hnd' hmem).symm

/-! ## Set-model lemmas -/

theorem setAdd_ne_nil (s : List String) (x : String) : setAdd s x ≠ [] := by
  unfold setAdd
  split
  · intro h
    subst h
    simp_all
  · simp

theorem mem_setAdd_self (s : List String) (x : String) : x ∈ setAdd s x := by
  unfold setAdd
  split
  · assumption
  · simp

theorem setAdd_of_mem {s : List String} {x : String} (h : x ∈ s) : setAdd s x = s := by
  simp [setAdd, h]

theorem mem_setAdd_iff {s : List String} {x y : String} :
    y ∈ setAdd s x ↔ y ∈ s ∨ y = x := by
  unfold setAdd
  split
  · constructor
    · exact Or.inl
    · rintro (h | rfl) <;> assumption
  · simp

theorem nodup_setAdd {s : List String} (h : s.Nodup) (x : String) : (setAdd s x).Nodup := by
  unfold setAdd
  split
  · exact h
  · simpa [List.nodup_append, h] using ‹¬ x ∈ s›

theorem mem_pySet {l : List String} {x : String} : x ∈ pySet l ↔ x ∈ l := by
  induction l with
  | nil => simp [pySet]
  | cons y ys ih =>
    simp only [pySet, List.mem_cons, List.mem_filter]
    constructor
    · rintro (rfl | ⟨h, _⟩)
      · exact Or.inl rfl
      · exact Or.inr (ih.mp h)
    · rintro (rfl | h)
      · exact Or.inl rfl
      · by_cases hxy : x = y
        · exact Or.inl hxy
        · exact Or.inr ⟨ih.mpr h, by simpa using hxy⟩

theorem nodup_pySet (l : List String) : (pySet l).Nodup := by
  induction l with
  | nil => simp [pySet]
  | cons y ys ih =>
    simp only [pySet, List.nodup_cons]
    constructor
    · intro h
      have h2 := (List.mem_filter.mp h).2
      simp only [decide_eq_true_eq] at h2
      exact h2 rfl
    · exact ih.filter _

theorem pySet_of_nodup {l : List String} (h : l.Nodup) : pySet l = l := by
  induction l with
  | nil => rfl
  | cons y ys ih =>
    rcases List.nodup_cons.mp h with ⟨hy, hys⟩
    simp only [pySet, ih hys]
    congr 1
    refine List.filter_eq_self.mpr ?_
    intro a ha
    simp only [decide_eq_true_eq]
    rintro rfl
    exact hy ha

theorem pySet_eq_nil_iff {l : List String} : pySet l = [] ↔ l = [] := by
  cases l <;> simp [pySet]

/-! ## Lexicographic order lemmas -/

theorem lexLe_total : ∀ a b : List Char, lexLe a b = true ∨ lexLe b a = true
  | [], _ => Or.inl rfl
  | _ :: _, [] => Or.inr rfl
  | a :: as, b :: bs => by
    rcases Nat.lt_trichotomy a.toNat b.toNat with h | h | h
    · left
      simp [lexLe, h]
    · rcases lexLe_total as bs with ih | ih
      · left
        simp [lexLe, h, Nat.lt_irrefl, ih]
      · right
        simp [lexLe, h.symm, Nat.lt_irrefl, ih]
    · right
      simp [lexLe, h]

theorem lexLe_trans : ∀ {a b c : List Char}, lexLe a b = true → lexLe b c = true →
    lexLe a c = true
  | [], _, _, _, _ => rfl
  | _ :: _, [], _, h1, _ => by simp [lexLe] at h1
  | _ :: _, _ :: _, [], _, h2 => by simp [lexLe] at h2
  | a :: as, b :: bs, c :: cs, h1, h2 => by
    simp only [lexLe] at h1 h2 ⊢
    by_cases hab : a.toNat < b.toNat
    · by_cases hbc : b.toNat < c.toNat
      · simp [Nat.lt_trans hab hbc]
      · by_cases heq : b.toNat = c.toNat
        · simp [heq ▸ hab]
        · simp [hbc, heq] at h2
    · by_cases hab' : a.toNat = b.toNat
      · by_cases hbc : b.toNat < c.toNat
        · simp [hab' ▸ hbc]
        · by_cases hbc' : b.toNat = c.toNat
          · have hac : a.toNat = c.toNat := hab'.trans hbc'
            rw [if_neg hab, if_pos hab'] at h1
            rw [if_neg hbc, if_pos hbc'] at h2
            rw [hac]
            simp [Nat.lt_irrefl, lexLe_trans h1 h2]
          · simp [hbc, hbc'] at h2
      · simp [hab, hab'] at h1

theorem keyRel_total {α : Type} : IsTotal (String × α) keyRel :=
  ⟨fun x y => lexLe_total x.1.data y.1.data⟩

theorem keyRel_trans {α : Type} : IsTrans (String × α) keyRel :=
  ⟨fun _ _ _ h1 h2 => lexLe_trans h1 h2⟩

/-! ## Substring lemmas -/

theorem startsWithCL_append : ∀ p r : List Char, startsWithCL p (p ++ r) = true
  | [], _ => rfl
  | a :: as, r => by simp [startsWithCL, startsWithCL_append as r]

theorem containsCL_here {sub t : List Char} (h : startsWithCL sub t = true) :
    containsCL sub t = true := by
  cases t with
  | nil => simpa [containsCL] using h
  | cons c rest => simp [containsCL, h]

theorem containsCL_append_left : ∀ (pre : List Char) {sub t : List Char},
    containsCL sub t = true → containsCL sub (pre ++ t) = true
  | [], _, _, h => h
  | c :: pre, sub, t, h => by
    show (startsWithCL sub (c :: (pre ++ t)) || containsCL sub (pre ++ t)) = true
    rw [containsCL_append_left pre h]
    simp

theorem strContains_left (b c : String) : strContains (b ++ c) b = true := by
  unfold strContains
  rw [String.data_append]
  exact containsCL_here (startsWithCL_append _ _)

theorem strContains_right (a b : String) : strContains (a ++ b) b = true := by
  unfold strContains
  rw [String.data_append]
  apply containsCL_append_left
  have h := startsWithCL_append b.data []
  rw [List.append_nil] at h
  exact containsCL_here h

theorem strContains_middle (a b c : String) : strContains (a ++ b ++ c) b = true := by
  unfold strContains
  have h : (a ++ b ++ c).data = a.data ++ (b.data ++ c.data) := by
    simp [String.data_append]
  rw [h]
  exact containsCL_append_left _ (containsCL_here (startsWithCL_append _ _))

/-! ## Validation lemmas -/

theorem validateEntries_eq_ok_iff (kvs : List (String × Json)) :
    validateEntries kvs = Except.ok () ↔ ∀ kv ∈ kvs, isStrArr kv.2 = true := by
  induction kvs with
  | nil => simp [validateEntries]
  | cons kv rest ih =>
    obtain ⟨k, v⟩ := kv
    cases v with
    | arr xs =>
      by_cases hall : xs.all isStr = true
      · simp [validateEntries, hall, ih, isStrArr]
      · simp [validateEntries, hall, isStrArr]
    | null => simp [validateEntries, isStrArr]
    | bool b => simp [validateEntries, isStrArr]
    | num n => simp [validateEntries, isStrArr]
    | str s => simp [validateEntries, isStrArr]
    | obj o => simp [validateEntries, isStrArr]

theorem validate_obj_ok {kvs : List (String × Json)}
    (h : ∀ kv ∈ kvs, isStrArr kv.2 = true) :
    _validate_tags_data (Json.obj kvs) =
      Except.ok (kvs.map (fun kv => (kv.1, pySet (jsonToStrList kv.2)))) := by
  have hv : validateEntries kvs = Except.ok () := (validateEntries_eq_ok_iff kvs).mpr h
  simp only [_validate_tags_data, hv]

theorem validate_obj_error {kvs : List (String × Json)} {e : PyError}
    (h : _validate_tags_data (Json.obj kvs) = Except.error e) :
    validateEntries kvs = Except.error e := by
  cases hv : validateEntries kvs with
  | error e' =>
    simp only [_validate_tags_data, hv] at h
    cases h
    rfl
  | ok u =>
    cases u
    simp only [_validate_tags_data, hv] at h
    cases h

theorem validate_ok_iff (j : Json) :
    (∃ t, _validate_tags_data j = Except.ok t) ↔ schemaOk j = true := by
  cases j with
  | obj kvs =>
    constructor
    · rintro ⟨t, ht⟩
      cases hv : validateEntries kvs with
      | error e =>
        simp only [_validate_tags_data, hv] at ht
        simp at ht
      | ok u =>
        cases u
        rw [validateEntries_eq_ok_iff] at hv
        simpa [schemaOk, List.all_eq_true] using hv
    · intro hs
      exact ⟨_, validate_obj_ok (by simpa [schemaOk, List.all_eq_true] using hs)⟩
  | null => simp [_validate_tags_data, schemaOk]
  | bool b => simp [_validate_tags_data, schemaOk]
  | num n => simp [_validate_tags_data, schemaOk]
  | str s => simp [_validate_tags_data, schemaOk]
  | arr xs => simp [_validate_tags_data, schemaOk]

theorem error_names_nonlist (k : String) (v : Json) (e : PyError)
    (he : e = PyError.typeError ("\"" ++ k ++ "\" is of non-list type " ++ typeName v)) :
    ∃ msg, e = PyError.typeError msg ∧
      strContains msg ("\"" ++ k ++ "\"") = true ∧
      strContains msg (typeName v) = true := by
  refine ⟨_, he, ?_, ?_⟩
  · have hsplit : ("\"" ++ k ++ "\" is of non-list type " ++ typeName v : String) =
        ("\"" ++ k ++ "\"") ++ (" is of non-list type " ++ typeName v) := by
      apply String.ext
      simp [String.data_append, List.append_assoc]
    rw [hsplit]
    exact strContains_left _ _
  · exact strContains_right _ _

theorem error_names_badlist (k : String) (e : PyError)
    (he : e = PyError.typeError ("\"" ++ k ++ "\" list contains non-string elements")) :
    ∃ msg, e = PyError.typeError msg ∧
      strContains msg ("\"" ++ k ++ "\"") = true ∧
      strContains msg "list" = true := by
  refine ⟨_, he, ?_, ?_⟩
  · have hsplit : ("\"" ++ k ++ "\" list contains non-string elements" : String) =
        ("\"" ++ k ++ "\"") ++ " list contains non-string elements" := by
      apply String.ext
      simp [String.data_append, List.append_assoc]
    rw [hsplit]
    exact strContains_left _ _
  · have hsplit : ("\"" ++ k ++ "\" list contains non-string elements" : String) =
        ("\"" ++ k ++ "\" ") ++ "list" ++ " contains non-string elements" := by
      apply String.ext
      simp [String.data_append, List.append_assoc]
    rw [hsplit]
    exact strContains_middle _ _ _

theorem validateEntries_error_names :
    ∀ (kvs : List (String × Json)) (e : PyError), validateEntries kvs = Except.error e →
    ∃ k v msg, (k, v) ∈ kvs ∧ isStrArr v = false ∧ e = PyError.typeError msg ∧
      strContains msg ("\"" ++ k ++ "\"") = true ∧
      strContains msg (typeName v) = true := by
  intro kvs
  induction kvs with
  | nil =>
    intro e h
    simp [validateEntries] at h
  | cons kv rest ih =>
    intro e h
    obtain ⟨k, v⟩ := kv
    cases v with
    | arr xs =>
      by_cases hall : xs.all isStr = true
      · simp only [validateEntries, hall, if_true] at h
        obtain ⟨k', v', msg, hm, h1, h2, h3, h4⟩ := ih e h
        exact ⟨k', v', msg, List.mem_cons_of_mem _ hm, h1, h2, h3, h4⟩
      · have hall' : xs.all isStr = false := by simpa using hall
        simp only [validateEntries, hall', Bool.false_eq_true, if_false] at h
        cases h
        obtain ⟨msg, h2, h3, h4⟩ := error_names_badlist k _ rfl
        exact ⟨k, Json.arr xs, msg, List.mem_cons_self _ _, by simpa [isStrArr] using hall',
          h2, h3, h4⟩
    | null =>
      simp only [validateEntries] at h
      cases h
      obtain ⟨msg, h2, h3, h4⟩ := error_names_nonlist k Json.null _ rfl
      exact ⟨k, Json.null, msg, List.mem_cons_self _ _, rfl, h2, h3, h4⟩
    | bool b =>
      simp only [validateEntries] at h
      cases h
      obtain ⟨msg, h2, h3, h4⟩ := error_names_nonlist k (Json.bool b) _ rfl
      exact ⟨k, Json.bool b, msg, List.mem_cons_self _ _, rfl, h2, h3, h4⟩
    | num n =>
      simp only [validateEntries] at h
      cases h
      obtain ⟨msg, h2, h3, h4⟩ := error_names_nonlist k (Json.num n) _ rfl
      exact ⟨k, Json.num n, msg, List.mem_cons_self _ _, rfl, h2, h3, h4⟩
    | str s =>
      simp only [validateEntries] at h
      cases h
      obtain ⟨msg, h2, h3, h4⟩ := error_names_nonlist k (Json.str s) _ rfl
      exact ⟨k, Json.str s, msg, List.mem_cons_self _ _, rfl, h2, h3, h4⟩
    | obj o =>
      simp only [validateEntries] at h
      cases h
      obtain ⟨msg, h2, h3, h4⟩ := error_names_nonlist k (Json.obj o) _ rfl
      exact ⟨k, Json.obj o, msg, List.mem_cons_self _ _, rfl, h2, h3, h4⟩

/-! ## set_tags lemmas -/

theorem dictGet_set_tags_nil_self (tags : Tags) (f : String) :
    dictGet (set_tags tags f []) f = none := by
  show dictGet (dictDel (dictSet tags f (pySet [])) f) f = none
  exact dictGet_dictDel_self ..

theorem dictGet_set_tags_nil_ne (tags : Tags) {f g : String} (h : f ≠ g) :
    dictGet (set_tags tags f []) g = dictGet tags g := by
  show dictGet (dictDel (dictSet tags f (pySet [])) f) g = dictGet tags g
  rw [dictGet_dictDel_ne _ h, dictGet_dictSet_ne _ _ h]

theorem dictGet_set_tags_self (tags : Tags) (f : String) {ts : List String}
    (h : ts ≠ []) : dictGet (set_tags tags f ts) f = some (pySet ts) := by
  have hne : (pySet ts).isEmpty = false := by
    cases ts with
    | nil => exact absurd rfl h
    | cons x xs => rfl
  show dictGet (if (pySet ts).isEmpty then dictDel (dictSet tags f (pySet ts)) f
      else dictSet tags f (pySet ts)) f = some (pySet ts)
  rw [hne]
  simp only [Bool.false_eq_true, if_false]
  exact dictGet_dictSet_self ..

theorem dictGet_set_tags_ne (tags : Tags) {f g : String} (ts : List String)
    (h : f ≠ g) : dictGet (set_tags tags f ts) g = dictGet tags g := by
  show dictGet (if (pySet ts).isEmpty then dictDel (dictSet tags f (pySet ts)) f
      else dictSet tags f (pySet ts)) g = dictGet tags g
  by_cases he : (pySet ts).isEmpty
  · rw [if_pos he, dictGet_dictDel_ne _ h, dictGet_dictSet_ne _ _ h]
  · rw [if_neg he, dictGet_dictSet_ne _ _ h]

/-! ## Claim theorems -/

/-- Claim C8 (confirmed): after closing a store whose mapping is empty
the sidecar file does not exist: `TagsFile.__exit__` deletes the sidecar
when it exists and writes nothing otherwise, so an empty mapping is
never persisted as an empty JSON object. -/
theorem C8_close_empty_no_sidecar (discard : Bool) (existsF : String → Bool)
    (sidecar : Option Json) : tagsFileExit discard existsF [] sidecar = none := by
  cases sidecar <;> cases discard <;> rfl

/-- Claim C7 (confirmed): `add_tag f t` inserts `t` into `f`'s tag set,
creating the entry if absent; it is a no-op when `t` is already present;
it is idempotent (adding twice equals adding once); afterwards `t` is a
member of `get_tags f`; and no other file's entry changes. -/
theorem C7_add_tag_idempotent (tags : Tags) (f t : String) :
    (∀ s, dictGet tags f = some s → t ∈ s → add_tag tags f t = tags) ∧
    add_tag (add_tag tags f t) f t = add_tag tags f t ∧
    (∃ s', get_tags (add_tag tags f t) f = Except.ok s' ∧ t ∈ s') ∧
    (∀ g, g ≠ f → dictGet (add_tag tags f t) g = dictGet tags g) := by
  refine ⟨?_, ?_, ?_, ?_⟩
  · intro s hs ht
    simp only [add_tag, hs, setAdd_of_mem ht]
    exact dictSet_of_get_eq hs
  · cases hs : dictGet tags f with
    | some s =>
      simp only [add_tag, hs, dictGet_dictSet_self, dictSet_dictSet]
      rw [setAdd_of_mem (mem_setAdd_self s t)]
    | none =>
      simp only [add_tag, hs, dictGet_dictSet_self, dictSet_dictSet]
      rw [setAdd_of_mem (by simp : t ∈ [t])]
  · cases hs : dictGet tags f with
    | some s =>
      refine ⟨setAdd s t, ?_, mem_setAdd_self s t⟩
      simp [add_tag, hs, get_tags, dictGet_dictSet_self]
    | none =>
      refine ⟨[t], ?_, by simp⟩
      simp [add_tag, hs, get_tags, dictGet_dictSet_self]
  · intro g hg
    cases hs : dictGet tags f with
    | some s =>
      simp only [add_tag, hs]
      exact dictGet_dictSet_ne _ _ (Ne.symm hg)
    | none =>
      simp only [add_tag, hs]
      exact dictGet_dictSet_ne _ _ (Ne.symm hg)

/-- Witness for C7 at a concrete store. -/
theorem C7_witness :
    (∀ s, dictGet [("a", ["t"])] "a" = some s → "t" ∈ s →
        add_tag [("a", ["t"])] "a" "t" = [("a", ["t"])]) ∧
    add_tag (add_tag [("a", ["t"])] "a" "t") "a" "t" = add_tag [("a", ["t"])] "a" "t" ∧
    (∃ s', get_tags (add_tag [("a", ["t"])] "a" "t") "a" = Except.ok s' ∧ "t" ∈ s') ∧
    (∀ g, g ≠ "a" → dictGet (add_tag [("a", ["t"])] "a" "t") g = dictGet [("a", ["t"])] g) :=
  C7_add_tag_idempotent [("a", ["t"])] "a" "t"

theorem tagsInv_dictSet {tags : Tags} (h : TagsInv tags) {f : String} {v : List String}
    (hv : v ≠ []) : TagsInv (dictSet tags f v) := by
  intro kv hkv
  rcases mem_dictSet hkv with rfl | hm
  · exact hv
  · exact h kv hm

theorem tagsInv_dictDel_dictSet {tags : Tags} (h : TagsInv tags) (f : String)
    (v : List String) : TagsInv (dictDel (dictSet tags f v) f) := by
  intro kv hkv
  have hmem := List.mem_filter.mp hkv
  have hne : kv.1 ≠ f := by simpa using hmem.2
  rcases mem_dictSet hmem.1 with rfl | hm
  · exact absurd rfl hne
  · exact h kv hm

/-- Counterexample to claim C1: loading a sidecar whose value for key
`"a"` is the empty array leaves `"a"` in the mapping with an empty set
(`_validate_tags_data` never prunes empty sets), violating the
present-iff-non-empty invariant — and a subsequent close then persists
the empty array, which the spec says never happens. -/
theorem C1_counterexample :
    _validate_tags_data (Json.obj [("a", Json.arr [])]) = Except.ok [("a", [])] ∧
    ¬ TagsInv [("a", [])] ∧
    tagsFileExit false (fun _ => true) [("a", [])] none =
      some (Json.obj [("a", Json.arr [])]) := by
  refine ⟨rfl, ?_, rfl⟩
  intro h
  exact h ("a", []) (by simp) rfl

/-- Claim C1 amended: the present-iff-non-empty invariant is preserved
by `set_tags`, `add_tag`, `remove_tag` and by the missing-file filter
run at close, provided it held before; loading does NOT establish it
(see the counterexample: a key mapped to an empty array is kept with an
empty set). -/
theorem C1_invariant_preserved (tags : Tags) (f t : String) (ts : List String)
    (discard : Bool) (existsF : String → Bool) (h : TagsInv tags) :
    TagsInv (set_tags tags f ts) ∧
    TagsInv (add_tag tags f t) ∧
    (∀ tags', remove_tag tags f t = Except.ok tags' → TagsInv tags') ∧
    TagsInv (filter_missing_files discard existsF tags) := by
  refine ⟨?_, ?_, ?_, ?_⟩
  · show TagsInv (if (pySet ts).isEmpty then dictDel (dictSet tags f (pySet ts)) f
        else dictSet tags f (pySet ts))
    split
    · exact tagsInv_dictDel_dictSet h f _
    · next he =>
      refine tagsInv_dictSet h ?_
      intro hnil
      rw [hnil] at he
      exact he rfl
  · cases hs : dictGet tags f with
    | some s =>
      simp only [add_tag, hs]
      exact tagsInv_dictSet h (setAdd_ne_nil s t)
    | none =>
      simp only [add_tag, hs]
      exact tagsInv_dictSet h (by simp)
  · intro tags' ht
    cases hs : dictGet tags f with
    | none => simp [remove_tag, hs] at ht
    | some s =>
      simp only [remove_tag, hs] at ht
      split at ht
      · cases ht
        exact tagsInv_dictDel_dictSet h f _
      · next he =>
        cases ht
        refine tagsInv_dictSet h ?_
        intro hnil
        rw [hnil] at he
        exact he rfl
  · show TagsInv (if discard then tags.filter (fun kv => existsF kv.1) else tags)
    split
    · intro kv hkv
      exact h kv (List.mem_of_mem_filter hkv)
    · exact h

/-- Witness for the amended C1 at a concrete store. -/
theorem C1_witness :
    TagsInv [("a", ["t"])] ∧
    (TagsInv (set_tags [("a", ["t"])] "a" ["u"]) ∧
     TagsInv (add_tag [("a", ["t"])] "a" "u" ) ∧
     (∀ tags', remove_tag [("a", ["t"])] "a" "u" = Except.ok tags' → TagsInv tags') ∧
     TagsInv (filter_missing_files true (fun _ => true) [("a", ["t"])])) :=
  ⟨by unfold TagsInv; decide,
   C1_invariant_preserved [("a", ["t"])] "a" "u" ["u"] true (fun _ => true)
    (by unfold TagsInv; decide)⟩

/-- Counterexample to claim C3: when the file has no entry at all,
`remove_tag` is not a no-op — `self.tags[filename]` raises `KeyError`. -/
theorem C3_counterexample :
    remove_tag ([] : Tags) "f" "t" = Except.error (PyError.keyError "f") ∧
    remove_tag ([] : Tags) "f" "t" ≠ Except.ok [] := by
  refine ⟨rfl, ?_⟩
  intro h
  exact Except.noConfusion h

/-- Claim C3 amended: when the file HAS an entry, `remove_tag` removes
the tag if present (a genuine no-op when the tag is absent), deletes the
entry when the set becomes empty so that `get_tags` then fails with
`KeyError` (the spec's `UnknownFileError`), `get_tags` after the removal
never contains the tag, and other files' entries are unchanged; when the
file has NO entry, `remove_tag` raises `KeyError` instead of being a
no-op. -/
theorem C3_remove_tag (tags : Tags) (f t : String) (hWF : WFTags tags) :
    (dictGet tags f = none → remove_tag tags f t = Except.error (PyError.keyError f)) ∧
    (∀ s, dictGet tags f = some s →
      ∃ tags', remove_tag tags f t = Except.ok tags' ∧
        (∀ r, get_tags tags' f = Except.ok r → t ∉ r) ∧
        ((s.erase t).isEmpty = true → get_tags tags' f = Except.error (PyError.keyError f)) ∧
        (t ∉ s → s ≠ [] → tags' = tags) ∧
        (∀ g, g ≠ f → dictGet tags' g = dictGet tags g)) := by
  constructor
  · intro hn
    simp [remove_tag, hn]
  · intro s hs
    have hnodup : s.Nodup := hWF.2 (f, s) (mem_of_dictGet_some hs)
    by_cases he : (s.erase t).isEmpty = true
    · refine ⟨dictDel (dictSet tags f (s.erase t)) f, ?_, ?_, ?_, ?_, ?_⟩
      · simp [remove_tag, hs, he]
      · intro r hr
        rw [get_tags, dictGet_dictDel_self] at hr
        cases hr
      · intro _
        rw [get_tags, dictGet_dictDel_self]
      · intro hts hsnil
        rw [List.erase_of_not_mem hts] at he
        exact absurd (List.isEmpty_iff.mp he) hsnil
      · intro g hg
        rw [dictGet_dictDel_ne _ (Ne.symm hg), dictGet_dictSet_ne _ _ (Ne.symm hg)]
    · refine ⟨dictSet tags f (s.erase t), ?_, ?_, ?_, ?_, ?_⟩
      · simp [remove_tag, hs, he]
      · intro r hr
        rw [get_tags, dictGet_dictSet_self] at hr
        cases hr
        exact hnodup.not_mem_erase
      · intro h0
        exact absurd h0 he
      · intro hts _
        rw [List.erase_of_not_mem hts]
        exact dictSet_of_get_eq hs
      · intro g hg
        exact dictGet_dictSet_ne _ _ (Ne.symm hg)

/-- Witness for the amended C3 at a concrete store. -/
theorem C3_witness :
    WFTags [("a", ["t", "u"])] ∧
    ((dictGet [("a", ["t", "u"])] "b" = none →
        remove_tag [("a", ["t", "u"])] "b" "t" = Except.error (PyError.keyError "b")) ∧
     (∀ s, dictGet [("a", ["t", "u"])] "b" = some s →
       ∃ tags', remove_tag [("a", ["t", "u"])] "b" "t" = Except.ok tags' ∧
         (∀ r, get_tags tags' "b" = Except.ok r → "t" ∉ r) ∧
         ((s.erase "t").isEmpty = true →
           get_tags tags' "b" = Except.error (PyError.keyError "b")) ∧
         ("t" ∉ s → s ≠ [] → tags' = [("a", ["t", "u"])]) ∧
         (∀ g, g ≠ "b" → dictGet tags' g = dictGet [("a", ["t", "u"])] g))) :=
  ⟨by unfold WFTags; decide, C3_remove_tag [("a", ["t", "u"])] "b" "t" (by unfold WFTags; decide)⟩

/-- Claim C9 (confirmed): when the destination of `mv_tagged_file`
resolves to the same file name in the same directory as the source, the
move deletes all of the file's tags: `copy_tags` sets the key to a copy
of its own set and then clears that same key, so the file is untagged
afterwards (other entries unchanged; the rename still happens). -/
theorem C9_same_name_move_deletes_tags (tags : Tags) (sidecar : Option Json)
    (f : String) (s : List String) (h : dictGet tags f = some s) :
    (mv_same_dir tags sidecar f f).err = none ∧
    (mv_same_dir tags sidecar f f).renamed = true ∧
    dictGet (mv_same_dir tags sidecar f f).tagsAfter f = none ∧
    (∀ g, g ≠ f → dictGet (mv_same_dir tags sidecar f f).tagsAfter g = dictGet tags g) := by
  have hc : copy_tags f f tags = Except.ok (set_tags (set_tags tags f s) f []) := by
    simp [copy_tags, get_tags, h]
  refine ⟨by simp only [mv_same_dir, hc], by simp only [mv_same_dir, hc], ?_, ?_⟩
  · simp only [mv_same_dir, hc]
    exact dictGet_set_tags_nil_self ..
  · simp only [mv_same_dir, hc]
    intro g hg
    rw [dictGet_set_tags_nil_ne _ (Ne.symm hg), dictGet_set_tags_ne _ _ (Ne.symm hg)]

/-- Witness for C9 at a concrete store. -/
theorem C9_witness :
    (mv_same_dir [("a", ["t"])] none "a" "a").err = none ∧
    (mv_same_dir [("a", ["t"])] none "a" "a").renamed = true ∧
    dictGet (mv_same_dir [("a", ["t"])] none "a" "a").tagsAfter "a" = none ∧
    (∀ g, g ≠ "a" →
      dictGet (mv_same_dir [("a", ["t"])] none "a" "a").tagsAfter g =
        dictGet [("a", ["t"])] g) :=
  C9_same_name_move_deletes_tags [("a", ["t"])] none "a" ["t"] rfl

/-- Claim C10 (confirmed): when the source file has no entry in its
directory's mapping, `mv_tagged_file` raises (`get_tags` fails with
`KeyError` inside `copy_tags`) and the `path1.rename(path2)` call after
the `with` block is never reached, in both the same-directory and the
cross-directory branch. -/
theorem C10_move_untagged_source_fails (tags tags2 : Tags) (sidecar : Option Json)
    (k1 k2 : String) (h : dictGet tags k1 = none) :
    (mv_same_dir tags sidecar k1 k2).err = some (PyError.keyError k1) ∧
    (mv_same_dir tags sidecar k1 k2).renamed = false ∧
    (mv_cross_dir tags tags2 k1 k2).err = some (PyError.keyError k1) ∧
    (mv_cross_dir tags tags2 k1 k2).renamed = false := by
  have hc : copy_tags k1 k2 tags = Except.error (PyError.keyError k1) := by
    simp [copy_tags, get_tags, h]
  have hc2 : copy_tags2 k1 k2 tags tags2 = Except.error (PyError.keyError k1) := by
    simp [copy_tags2, get_tags, h]
  exact ⟨by simp only [mv_same_dir, hc], by simp only [mv_same_dir, hc],
    by simp only [mv_cross_dir, hc2], by simp only [mv_cross_dir, hc2]⟩

/-- Witness for C10 at a concrete store: `"f"` exists as a file but has
no tag entry. -/
theorem C10_witness :
    (mv_same_dir [("g", ["t"])] none "f" "h").err = some (PyError.keyError "f") ∧
    (mv_same_dir [("g", ["t"])] none "f" "h").renamed = false ∧
    (mv_cross_dir [("g", ["t"])] [] "f" "h").err = some (PyError.keyError "f") ∧
    (mv_cross_dir [("g", ["t"])] [] "f" "h").renamed = false :=
  C10_move_untagged_source_fails [("g", ["t"])] [] none "f" "h" rfl

theorem eqAsSets_refl (o : Option (List String)) : EqAsSets o o := by
  cases o with
  | none => trivial
  | some s => exact fun x => Iff.rfl

theorem tagsFileExit_nonempty (tags : Tags) (existsF : String → Bool)
    (sidecar : Option Json) (hne : tags ≠ []) :
    tagsFileExit false existsF tags sidecar = some (serializeTags tags) := by
  have hfe : filter_missing_files false existsF tags = tags := rfl
  have hie : ¬ tags.isEmpty = true := by
    rw [List.isEmpty_iff]
    exact hne
  unfold tagsFileExit
  rw [hfe, if_pos hie]

/-- Claim C2 (confirmed): validation of a parsed sidecar value fails
exactly when the schema is violated (the root is not an object, or some
value is not an array of strings; a non-string key cannot occur in
parsed JSON, so that disjunct is vacuous); when an entry is the
offender, the raised error's message names the offending key (quoted)
and the value's actual Python type name (for a list with non-string
elements the message's word `list` IS the value's type name); on failure
only the error is returned (no partial mapping); and on success every
array is converted to a deduplicated set, entry for entry. -/
theorem C2_validation (j : Json) :
    ((∃ t, _validate_tags_data j = Except.ok t) ↔ schemaOk j = true) ∧
    (∀ kvs e, j = Json.obj kvs → _validate_tags_data j = Except.error e →
      ∃ k v msg, (k, v) ∈ kvs ∧ isStrArr v = false ∧ e = PyError.typeError msg ∧
        strContains msg ("\"" ++ k ++ "\"") = true ∧
        strContains msg (typeName v) = true) ∧
    (∀ kvs t, j = Json.obj kvs → _validate_tags_data j = Except.ok t →
      List.Forall₂ (fun kv st => ∃ xs, kv.2 = Json.arr xs ∧ st.1 = kv.1 ∧
        st.2.Nodup ∧ ∀ x, x ∈ st.2 ↔ Json.str x ∈ xs) kvs t) := by
  refine ⟨validate_ok_iff j, ?_, ?_⟩
  · rintro kvs e rfl h
    exact validateEntries_error_names kvs e (validate_obj_error h)
  · rintro kvs t rfl ht
    cases hv : validateEntries kvs with
    | error e =>
      simp only [_validate_tags_data, hv] at ht
      simp at ht
    | ok u =>
      cases u
      simp only [_validate_tags_data, hv] at ht
      cases ht
      rw [List.forall₂_map_right_iff, List.forall₂_same]
      intro kv hkv
      have hsa : isStrArr kv.2 = true := (validateEntries_eq_ok_iff kvs).mp hv kv hkv
      have hex : ∃ xs, kv.2 = Json.arr xs ∧ ∀ z ∈ xs, isStr z = true := by
        cases hv2 : kv.2 with
        | arr xs =>
          rw [hv2] at hsa
          exact ⟨xs, rfl, by simpa [isStrArr, List.all_eq_true] using hsa⟩
        | null => rw [hv2] at hsa; simp [isStrArr] at hsa
        | bool b => rw [hv2] at hsa; simp [isStrArr] at hsa
        | num n => rw [hv2] at hsa; simp [isStrArr] at hsa
        | str s => rw [hv2] at hsa; simp [isStrArr] at hsa
        | obj o => rw [hv2] at hsa; simp [isStrArr] at hsa
      obtain ⟨xs, hxs, hall⟩ := hex
      refine ⟨xs, hxs, rfl, nodup_pySet _, ?_⟩
      intro x
      rw [mem_pySet, hxs]
      simp only [jsonToStrList, List.mem_map]
      constructor
      · rintro ⟨y, hy, rfl⟩
        have hstr := hall y hy
        cases y with
        | str s => simpa [asStr] using hy
        | null => simp [isStr] at hstr
        | bool b => simp [isStr] at hstr
        | num n => simp [isStr] at hstr
        | arr a => simp [isStr] at hstr
        | obj o => simp [isStr] at hstr
      · intro hx
        exact ⟨Json.str x, hx, rfl⟩

/-- Witness for C2 at a concrete parsed sidecar value (an array with a
duplicate, deduplicated silently on success). -/
theorem C2_witness :
    ((∃ t, _validate_tags_data (Json.obj [("x", Json.arr [Json.str "a", Json.str "a"])]) =
        Except.ok t) ↔
      schemaOk (Json.obj [("x", Json.arr [Json.str "a", Json.str "a"])]) = true) ∧
    (∀ kvs e, Json.obj [("x", Json.arr [Json.str "a", Json.str "a"])] = Json.obj kvs →
      _validate_tags_data (Json.obj [("x", Json.arr [Json.str "a", Json.str "a"])]) =
        Except.error e →
      ∃ k v msg, (k, v) ∈ kvs ∧ isStrArr v = false ∧ e = PyError.typeError msg ∧
        strContains msg ("\"" ++ k ++ "\"") = true ∧
        strContains msg (typeName v) = true) ∧
    (∀ kvs t, Json.obj [("x", Json.arr [Json.str "a", Json.str "a"])] = Json.obj kvs →
      _validate_tags_data (Json.obj [("x", Json.arr [Json.str "a", Json.str "a"])]) =
        Except.ok t →
      List.Forall₂ (fun kv st => ∃ xs, kv.2 = Json.arr xs ∧ st.1 = kv.1 ∧
        st.2.Nodup ∧ ∀ x, x ∈ st.2 ↔ Json.str x ∈ xs) kvs t) :=
  C2_validation (Json.obj [("x", Json.arr [Json.str "a", Json.str "a"])])

/-- Counterexample to claim C4: the value arrays written by
`TagsFile.__exit__` are `list(v)` in set-iteration order, NOT sorted
(only the KEYS are sorted, by `sort_keys=True`), and two set-equal
mappings can serialize to different bytes, so the output is not
deterministic for a given mapping.  The store `{"f": {"b","a"}}` with
iteration order `["b","a"]` is reachable by loading exactly that array
order. -/
theorem C4_counterexample :
    _validate_tags_data (Json.obj [("f", Json.arr [Json.str "b", Json.str "a"])]) =
      Except.ok [("f", ["b", "a"])] ∧
    tagsFileExit false (fun _ => true) [("f", ["b", "a"])] none =
      some (Json.obj [("f", Json.arr [Json.str "b", Json.str "a"])]) ∧
    ¬ List.Chain' (fun a b : String => strLe a b = true) ["b", "a"] ∧
    (∀ x, x ∈ (["b", "a"] : List String) ↔ x ∈ (["a", "b"] : List String)) ∧
    tagsFileExit false (fun _ => true) [("f", ["a", "b"])] none ≠
      tagsFileExit false (fun _ => true) [("f", ["b", "a"])] none := by
  refine ⟨rfl, rfl, ?_, ?_, ?_⟩
  · simp only [List.chain'_cons, List.chain'_singleton, and_true]
    decide
  · intro x
    constructor
    · intro h
      simp only [List.mem_cons, List.not_mem_nil, or_false] at h ⊢
      tauto
    · intro h
      simp only [List.mem_cons, List.not_mem_nil, or_false] at h ⊢
      tauto
  · intro h
    rw [show tagsFileExit false (fun _ => true) [("f", ["a", "b"])] none =
        some (Json.obj [("f", Json.arr [Json.str "a", Json.str "b"])]) from rfl,
      show tagsFileExit false (fun _ => true) [("f", ["b", "a"])] none =
        some (Json.obj [("f", Json.arr [Json.str "b", Json.str "a"])]) from rfl] at h
    simp only [Option.some.injEq, Json.obj.injEq, List.cons.injEq, Prod.mk.injEq,
      Json.arr.injEq, Json.str.injEq, and_true, true_and] at h
    exact absurd h.1 (by decide)

/-- Claim C4 amended: closing a store with a non-empty mapping
overwrites the sidecar with a JSON object that maps each file name to
the array of its tags, with KEYS in sorted order; the value arrays are
the tag sets' elements in arbitrary set-iteration order, not sorted, so
the serialization is deterministic in its key order but not canonical
for a given mapping (see the counterexample). -/
theorem C4_close_serialization (tags : Tags) (existsF : String → Bool)
    (sidecar : Option Json) (hne : tags ≠ []) :
    ∃ kvs, tagsFileExit false existsF tags sidecar = some (Json.obj kvs) ∧
      List.Sorted keyRel kvs ∧
      kvs.Perm (tags.map (fun kv => (kv.1, Json.arr (kv.2.map Json.str)))) := by
  haveI : IsTotal (String × Json) keyRel := keyRel_total
  haveI : IsTrans (String × Json) keyRel := keyRel_trans
  refine ⟨List.insertionSort keyRel
      (tags.map (fun kv => (kv.1, Json.arr (kv.2.map Json.str)))), ?_, ?_, ?_⟩
  · rw [tagsFileExit_nonempty tags existsF sidecar hne]
    rfl
  · exact List.sorted_insertionSort keyRel _
  · exact List.perm_insertionSort keyRel _

/-- Witness for the amended C4 at a concrete store. -/
theorem C4_witness :
    ([("f", ["a"])] : Tags) ≠ [] ∧
    ∃ kvs, tagsFileExit false (fun _ => true) [("f", ["a"])] none =
        some (Json.obj kvs) ∧
      List.Sorted keyRel kvs ∧
      kvs.Perm (([("f", ["a"])] : Tags).map
        (fun kv => (kv.1, Json.arr (kv.2.map Json.str)))) :=
  ⟨by simp, C4_close_serialization [("f", ["a"])] (fun _ => true) none (by simp)⟩

/-- Counterexample to claim C5: a move within a single directory whose
destination resolves to the same file name (e.g. `mv a.txt .`): the tags
on the source name before the move are `{"t"}`, but afterwards the
destination name (which IS the source name) has no tags at all — the
transfer copies the set onto the same key and then clears it — so the
before/after tag sets are not equal. -/
theorem C5_counterexample :
    dictGet [("a", ["t"])] "a" = some ["t"] ∧
    (mv_same_dir [("a", ["t"])] none "a" "a").err = none ∧
    dictGet (mv_same_dir [("a", ["t"])] none "a" "a").tagsAfter "a" = none ∧
    ¬ dictGet (mv_same_dir [("a", ["t"])] none "a" "a").tagsAfter "a" = some ["t"] := by
  refine ⟨rfl, rfl, rfl, ?_⟩
  intro h
  rw [show dictGet (mv_same_dir [("a", ["t"])] none "a" "a").tagsAfter "a" = none
    from rfl] at h
  cases h

/-- Claim C5 amended: for a move within a single directory whose
destination name DIFFERS from the source name, where the source has a
(non-empty) tag entry: the transfer happens in the single store by
setting the destination's tags to the source's set and then clearing the
source's entry, after which the destination's tags equal the source's
former tags, the source has none, other entries are untouched, and the
file rename is reached.  Amendment: the destination name must differ
from the source name — when they coincide the tags are deleted
instead. -/
theorem C5_same_dir_move (tags : Tags) (sidecar : Option Json) (k1 k2 : String)
    (s : List String) (hWF : WFTags tags) (hne : k1 ≠ k2)
    (hs : dictGet tags k1 = some s) (hsnil : s ≠ []) :
    (mv_same_dir tags sidecar k1 k2).err = none ∧
    (mv_same_dir tags sidecar k1 k2).renamed = true ∧
    dictGet (mv_same_dir tags sidecar k1 k2).tagsAfter k2 = some s ∧
    dictGet (mv_same_dir tags sidecar k1 k2).tagsAfter k1 = none ∧
    (∀ g, g ≠ k1 → g ≠ k2 →
      dictGet (mv_same_dir tags sidecar k1 k2).tagsAfter g = dictGet tags g) := by
  have hnodup : s.Nodup := hWF.2 (k1, s) (mem_of_dictGet_some hs)
  have hps : pySet s = s := pySet_of_nodup hnodup
  have hc : copy_tags k1 k2 tags = Except.ok (set_tags (set_tags tags k2 s) k1 []) := by
    simp [copy_tags, get_tags, hs]
  refine ⟨by simp only [mv_same_dir, hc], by simp only [mv_same_dir, hc], ?_, ?_, ?_⟩
  · simp only [mv_same_dir, hc]
    rw [dictGet_set_tags_nil_ne _ hne, dictGet_set_tags_self _ _ hsnil, hps]
  · simp only [mv_same_dir, hc]
    exact dictGet_set_tags_nil_self ..
  · intro g hg1 hg2
    simp only [mv_same_dir, hc]
    rw [dictGet_set_tags_nil_ne _ (Ne.symm hg1), dictGet_set_tags_ne _ _ (Ne.symm hg2)]

/-- Witness for the amended C5 at a concrete store. -/
theorem C5_witness :
    WFTags [("a", ["t"])] ∧ "a" ≠ "b" ∧ (["t"] : List String) ≠ [] ∧
    ((mv_same_dir [("a", ["t"])] none "a" "b").err = none ∧
     (mv_same_dir [("a", ["t"])] none "a" "b").renamed = true ∧
     dictGet (mv_same_dir [("a", ["t"])] none "a" "b").tagsAfter "b" = some ["t"] ∧
     dictGet (mv_same_dir [("a", ["t"])] none "a" "b").tagsAfter "a" = none ∧
     (∀ g, g ≠ "a" → g ≠ "b" →
       dictGet (mv_same_dir [("a", ["t"])] none "a" "b").tagsAfter g =
         dictGet [("a", ["t"])] g)) :=
  ⟨by unfold WFTags; decide, by decide, by decide,
   C5_same_dir_move [("a", ["t"])] none "a" "b" ["t"] (by unfold WFTags; decide)
     (by decide) rfl (by decide)⟩

/-- Claim C6 (confirmed): saving a store and then reloading a store from
the same directory yields an equal mapping: the same file name keys with
set-equal tag sets per file (the empty mapping round-trips through the
deleted sidecar via `create_new`). -/
theorem C6_round_trip (tags : Tags) (sidecar : Option Json) (existsF : String → Bool)
    (hWF : WFTags tags) :
    ∃ tags', tagsFileInit (tagsFileExit false existsF tags sidecar) true false existsF =
        Except.ok tags' ∧
      ∀ f, EqAsSets (dictGet tags' f) (dictGet tags f) := by
  cases htags : tags with
  | nil =>
    refine ⟨[], ?_, fun f => eqAsSets_refl _⟩
    rw [show tagsFileExit false existsF [] sidecar = none from by cases sidecar <;> rfl]
    rfl
  | cons kv rest =>
    rw [← htags]
    have hne : tags ≠ [] := by
      rw [htags]
      simp
    rw [tagsFileExit_nonempty tags existsF sidecar hne]
    have hall : ∀ kv ∈ List.insertionSort keyRel
        (tags.map (fun kv => (kv.1, Json.arr (kv.2.map Json.str)))),
        isStrArr kv.2 = true := by
      intro kv hkv
      rw [List.mem_insertionSort] at hkv
      obtain ⟨kv0, _, rfl⟩ := List.mem_map.mp hkv
      simp [isStrArr, List.all_eq_true, isStr]
    refine ⟨(List.insertionSort keyRel
        (tags.map (fun kv => (kv.1, Json.arr (kv.2.map Json.str))))).map
        (fun kv => (kv.1, pySet (jsonToStrList kv.2))), ?_, ?_⟩
    · simp only [tagsFileInit, serializeTags, validate_obj_ok hall]
      rfl
    · intro f
      set u := List.insertionSort keyRel
        (tags.map (fun kv => (kv.1, Json.arr (kv.2.map Json.str)))) with hu
      have hperm : (u.map (fun kv => (kv.1, pySet (jsonToStrList kv.2)))).Perm tags := by
        have h1 : u.Perm (tags.map (fun kv => (kv.1, Json.arr (kv.2.map Json.str)))) :=
          List.perm_insertionSort keyRel _
        have h2 := h1.map (fun kv => (kv.1, pySet (jsonToStrList kv.2)))
        rw [List.map_map] at h2
        have h3 : tags.map ((fun kv => (kv.1, pySet (jsonToStrList kv.2))) ∘
            (fun kv => (kv.1, Json.arr (kv.2.map Json.str)))) = tags := by
          have : ∀ kv ∈ tags, ((fun kv => (kv.1, pySet (jsonToStrList kv.2))) ∘
              (fun kv => (kv.1, Json.arr (kv.2.map Json.str)))) kv = kv := by
            intro kv hkv
            have hnd : kv.2.Nodup := hWF.2 kv hkv
            have hm : (kv.2.map Json.str).map asStr = kv.2 := by
              rw [List.map_map]
              have : asStr ∘ Json.str = id := by
                funext z
                rfl
              rw [this, List.map_id]
            simp only [Function.comp_apply, jsonToStrList, hm, pySet_of_nodup hnd]
          rw [List.map_congr_left this]
          simp
        rw [h3] at h2
        exact h2
      have hnd' : ((u.map (fun kv => (kv.1, pySet (jsonToStrList kv.2)))).map
          Prod.fst).Nodup := by
        have := (hperm.map Prod.fst).nodup_iff
        exact this.mpr hWF.1
      rw [dictGet_congr_perm hperm hnd' f]
      exact eqAsSets_refl _

/-- Witness for C6 at a concrete store. -/
theorem C6_witness :
    WFTags [("a", ["t", "u"])] ∧
    ∃ tags', tagsFileInit (tagsFileExit false (fun _ => true) [("a", ["t", "u"])] none)
        true false (fun _ => true) = Except.ok tags' ∧
      ∀ f, EqAsSets (dictGet tags' f) (dictGet [("a", ["t", "u"])] f) :=
  ⟨by unfold WFTags; decide,
   C6_round_trip [("a", ["t", "u"])] none (fun _ => true) (by unfold WFTags; decide)⟩
